import Mathlib

/-!
Shallow embedding of the audio preprocessing core in
`app/src/main/cpp/audio_processor.cpp`.

Modelling conventions:
* Sample buffers are Lean lists.  16-bit PCM samples are integers, float
  samples are rationals (`ℚ`) where the source arithmetic is field
  arithmetic on well-defined values, and reals (`ℝ`) where the constant
  `M_PI` or `sqrt` enters (high-pass filter, RMS).
* The C `static_cast<jsize>` of a non-negative floating value truncates
  toward zero, i.e. is `Nat.floor` on the exact value.
* An unguarded out-of-range array read (the filter writes
  `filtered[0] = audio[0]` unconditionally) is embedded as a fallible
  access returning `none`.
* IEEE `0.0 / 0` produces NaN; NaN results are embedded as `none`.
* JNI acquisition/allocation failures (`GetArrayElements` /
  `NewFloatArray` returning `nullptr`) are embedded by an explicit oracle
  recording which acquisitions succeed; the `nullptr` early return is
  `none`.  Inputs are released with `JNI_ABORT` (no write-back) on every
  path and the embedding is pure, so input buffers are never mutated.
-/

/-- Embeds `Java_com_app_whisper_native_AudioProcessor_pcm16ToFloat`
(lines 49-53): `float_data[i] = static_cast<float>(pcm[i]) * scale`
with `scale = 1.0f / 32768.0f`. -/
def pcm16ToFloat (pcm : List ℤ) : List ℚ :=
  pcm.map (fun s : ℤ => (s : ℚ) * (1 / 32768))

/-- Embeds `Java_com_app_whisper_native_AudioProcessor_resampleAudio`
(lines 75-120): equal-rate shortcut returning the input itself, otherwise
linear-interpolation resampling with `ratio = target_rate / source_rate`,
`target_length = trunc(source_length * ratio)`, and per output index `i`
`source_index = i / ratio`, `index = trunc(source_index)`,
`fraction = source_index - index`, clamping to the last input sample when
`index >= source_length - 1` (a signed comparison in the source, embedded
over `ℤ`). -/
def resampleAudio (audio : List ℚ) (source_rate target_rate : ℕ) : List ℚ :=
  if source_rate = target_rate then
    audio
  else
    let source_length := audio.length
    let ratio : ℚ := (target_rate : ℚ) / (source_rate : ℚ)
    let target_length : ℕ := ⌊(source_length : ℚ) * ratio⌋₊
    (List.range target_length).map (fun i : ℕ =>
      let source_index : ℚ := (i : ℚ) / ratio
      let index : ℕ := ⌊source_index⌋₊
      let fraction : ℚ := source_index - (index : ℚ)
      if (source_length : ℤ) - 1 ≤ (index : ℤ) then
        audio.getD (source_length - 1) 0
      else
        audio.getD index 0 * (1 - fraction) + audio.getD (index + 1) 0 * fraction)

/-- Embeds the filter coefficient of `highPassFilter` (lines 166-169):
`dt = 1.0f / sample_rate`, `rc = 1.0f / (2.0f * M_PI * cutoff_freq)`,
`alpha = rc / (rc + dt)`. -/
noncomputable def hpfAlpha (cutoff_freq : ℝ) (sample_rate : ℕ) : ℝ :=
  let dt : ℝ := 1 / (sample_rate : ℝ)
  let rc : ℝ := 1 / (2 * Real.pi * cutoff_freq)
  rc / (rc + dt)

/-- Embeds the loop of `highPassFilter` (lines 172-174):
`filtered[i] = alpha * (filtered[i-1] + audio[i] - audio[i-1])`, carrying
the previous output and previous input through the recursion. -/
noncomputable def hpfLoop (alpha : ℝ) : ℝ → ℝ → List ℝ → List ℝ
  | _, _, [] => []
  | prev, prevIn, x :: xs =>
      let y := alpha * (prev + x - prevIn)
      y :: hpfLoop alpha y x xs

/-- Embeds `Java_com_app_whisper_native_AudioProcessor_highPassFilter`
(lines 143-181).  The source writes `filtered[0] = audio[0]`
unconditionally; the read of `audio[0]` is embedded as the fallible head
access, so a zero-length buffer yields `none` (the out-of-bounds fault)
and otherwise the output is the first sample followed by the loop. -/
noncomputable def highPassFilter (audio : List ℝ) (cutoff_freq : ℝ)
    (sample_rate : ℕ) : Option (List ℝ) :=
  match audio with
  | [] => none
  | a0 :: rest => some (a0 :: hpfLoop (hpfAlpha cutoff_freq sample_rate) a0 a0 rest)

/-- Embeds the `max_val` scan of `normalizeAudio` (lines 203-209):
starting from `0.0f`, replace the accumulator by `|audio[i]|` whenever it
is strictly larger. -/
def maxAbsVal (audio : List ℚ) : ℚ :=
  audio.foldl (fun max_val x => if |x| > max_val then |x| else max_val) 0

/-- Embeds `Java_com_app_whisper_native_AudioProcessor_normalizeAudio`
(lines 194-243): if the peak is `0` the input buffer itself is returned,
otherwise every sample is scaled by `target_level / max_val`. -/
def normalizeAudio (audio : List ℚ) (target_level : ℚ) : List ℚ :=
  let max_val := maxAbsVal audio
  if max_val = 0 then
    audio
  else
    let scale := target_level / max_val
    audio.map (fun x => x * scale)

/-- Embeds the accumulation of `calculateRMS` (lines 263-266):
`sum_squares += audio[i] * audio[i]` from `0.0`.  The source accumulates
in `double`; the embedding is exact. -/
def sumSquares (audio : List ℚ) : ℚ :=
  audio.foldl (fun sum_squares x => sum_squares + x * x) 0

/-- Division as performed by `sum_squares / length` in the source: the
numerator is a sum of squares, so the divisor is zero exactly when the
buffer is empty, in which case IEEE evaluates `0.0 / 0` to NaN, embedded
as `none`. -/
noncomputable def divToNaN (a b : ℝ) : Option ℝ :=
  if b = 0 then none else some (a / b)

/-- Embeds `Java_com_app_whisper_native_AudioProcessor_calculateRMS`
(lines 255-272): `rms = sqrt(sum_squares / length)` with no guard on
`length = 0`; the NaN produced by `0.0 / 0` (and propagated by `sqrt`)
is embedded as `none`. -/
noncomputable def calculateRMS (audio : List ℚ) : Option ℝ :=
  (divToNaN ((sumSquares audio : ℚ) : ℝ) ((audio.length : ℕ) : ℝ)).map Real.sqrt

/-- JNI acquisition oracle: whether `Get…ArrayElements` on the input, the
`New…Array` allocation of the output, and `Get…ArrayElements` on the
output succeed. -/
structure AllocOracle where
  getInput : Bool
  newOutput : Bool
  getOutputElems : Bool

/-- JNI wrapper of `pcm16ToFloat` (lines 26-60): each acquisition failure
returns `nullptr` (embedded `none`) before any output is written. -/
def pcm16ToFloatJni (o : AllocOracle) (pcm : List ℤ) : Option (List ℚ) :=
  if o.getInput = false then none
  else if o.newOutput = false then none
  else if o.getOutputElems = false then none
  else some (pcm16ToFloat pcm)

/-- JNI wrapper of `resampleAudio` (lines 75-129): the equal-rate shortcut
returns the input before any acquisition; afterwards each acquisition
failure returns `nullptr` (embedded `none`). -/
def resampleAudioJni (o : AllocOracle) (audio : List ℚ)
    (source_rate target_rate : ℕ) : Option (List ℚ) :=
  if source_rate = target_rate then some audio
  else if o.getInput = false then none
  else if o.newOutput = false then none
  else if o.getOutputElems = false then none
  else some (resampleAudio audio source_rate target_rate)

/-- JNI wrapper of `highPassFilter` (lines 143-181): each acquisition
failure returns `nullptr` (embedded `none`) before the filter runs. -/
noncomputable def highPassFilterJni (o : AllocOracle) (audio : List ℝ)
    (cutoff_freq : ℝ) (sample_rate : ℕ) : Option (List ℝ) :=
  if o.getInput = false then none
  else if o.newOutput = false then none
  else if o.getOutputElems = false then none
  else highPassFilter audio cutoff_freq sample_rate

/-- JNI wrapper of `normalizeAudio` (lines 194-243): input acquisition
failure returns `nullptr`; the silence shortcut returns the input before
the output allocation; output acquisition failures return `nullptr`. -/
def normalizeAudioJni (o : AllocOracle) (audio : List ℚ)
    (target_level : ℚ) : Option (List ℚ) :=
  if o.getInput = false then none
  else if maxAbsVal audio = 0 then some audio
  else if o.newOutput = false then none
  else if o.getOutputElems = false then none
  else some (audio.map (fun x => x * (target_level / maxAbsVal audio)))

/-- JNI wrapper of `calculateRMS` (lines 255-272): input acquisition
failure returns the scalar `0.0f` (the null scalar result). -/
noncomputable def calculateRMSJni (o : AllocOracle) (audio : List ℚ) : Option ℝ :=
  if o.getInput = false then some 0
  else calculateRMS audio

/-- Indexing a mapped list inside its bounds applies the function to the
indexed element, independently of the defaults. -/
theorem getD_map_of_lt {α β : Type} (f : α → β) (l : List α) (dα : α) (dβ : β)
    (i : ℕ) (h : i < l.length) :
    (l.map f).getD i dβ = f (l.getD i dα) := by
  have h2 : i < (l.map f).length := by simpa using h
  rw [List.getD_eq_getElem?_getD, List.getD_eq_getElem?_getD,
    List.getElem?_eq_getElem h2, List.getElem?_eq_getElem h]
  simp

/-- Indexing a map over `List.range` inside its bounds evaluates the
function at the index. -/
theorem getD_range_map_of_lt {α : Type} (f : ℕ → α) (n i : ℕ) (h : i < n)
    (d : α) :
    ((List.range n).map f).getD i d = f i := by
  have hr : i < (List.range n).length := by simpa using h
  rw [getD_map_of_lt f _ 0 d i hr]
  congr 1
  rw [List.getD_eq_getElem?_getD, List.getElem?_eq_getElem hr]
  simp

/-- Indexing a replicated list inside its bounds yields the replicated
element. -/
theorem getD_replicate_of_lt {α : Type} (c : α) (n i : ℕ) (h : i < n) (d : α) :
    (List.replicate n c).getD i d = c := by
  have hr : i < (List.replicate n c).length := by simpa using h
  rw [List.getD_eq_getElem?_getD, List.getElem?_eq_getElem hr]
  simp

/-- Claim C4: `pcm16ToFloat` preserves length, is the elementwise map
`output[i] = input[i] * (1.0 / 32768.0)` with no cross-sample dependency,
sends the empty input to the empty output, and sends
`[16384, -16384, 0]` to `[0.5, -0.5, 0.0]`. -/
theorem pcm16ToFloat_spec (pcm : List ℤ)
    (hrange : ∀ s ∈ pcm, -32768 ≤ s ∧ s ≤ 32767) :
    (pcm16ToFloat pcm).length = pcm.length
    ∧ (∀ i, i < pcm.length →
        (pcm16ToFloat pcm).getD i 0 = (pcm.getD i 0 : ℚ) * (1 / 32768))
    ∧ pcm16ToFloat ([] : List ℤ) = []
    ∧ pcm16ToFloat [16384, -16384, 0] = [1 / 2, -1 / 2, 0] := by
  refine ⟨by simp only [pcm16ToFloat, List.length_map], ?_,
    by simp [pcm16ToFloat], by norm_num [pcm16ToFloat]⟩
  intro i hi
  rw [pcm16ToFloat, getD_map_of_lt _ _ 0 0 i hi]

/-- Witness for C4 at the spec's concrete scenario. -/
theorem pcm16ToFloat_spec_witness :
    (∀ s ∈ ([16384, -16384, 0] : List ℤ), -32768 ≤ s ∧ s ≤ 32767)
    ∧ pcm16ToFloat [16384, -16384, 0] = [1 / 2, -1 / 2, 0] :=
  ⟨by decide, (pcm16ToFloat_spec [16384, -16384, 0] (by decide)).2.2.2⟩

/-- Claim C6: resampling with equal source and target rates returns the
input buffer itself. -/
theorem resampleAudio_identity (x : List ℚ) (r : ℕ) :
    resampleAudio x r r = x := by
  simp [resampleAudio]

/-- Claim C1: for distinct positive rates, `resampleAudio` has length
`floor(N * target_rate / source_rate)` and each output sample is the
clamped linear interpolation at `source_index = i / (target_rate / source_rate)`,
with `index = floor(source_index)` and `fraction = source_index - index`. -/
theorem resampleAudio_spec (x : List ℚ) (s t : ℕ)
    (hs : 0 < s) (ht : 0 < t) (hne : s ≠ t) :
    (resampleAudio x s t).length = ⌊((x.length : ℚ) * (t : ℚ)) / (s : ℚ)⌋₊
    ∧ ∀ i, i < (resampleAudio x s t).length →
        (resampleAudio x s t).getD i 0 =
          (let source_index : ℚ := (i : ℚ) / ((t : ℚ) / (s : ℚ))
           let index : ℕ := ⌊source_index⌋₊
           let fraction : ℚ := source_index - (index : ℚ)
           if (x.length : ℤ) - 1 ≤ (index : ℤ) then
             x.getD (x.length - 1) 0
           else
             x.getD index 0 * (1 - fraction) + x.getD (index + 1) 0 * fraction) := by
  have hlen : (resampleAudio x s t).length = ⌊(x.length : ℚ) * ((t : ℚ) / (s : ℚ))⌋₊ := by
    simp only [resampleAudio, if_neg hne, List.length_map, List.length_range]
  constructor
  · rw [hlen, mul_div_assoc]
  · intro i hi
    rw [hlen] at hi
    simp only [resampleAudio, if_neg hne]
    rw [getD_range_map_of_lt _ _ i hi]

/-- Witness for C1 at the spec's upsampling scenario (8 kHz to 16 kHz). -/
theorem resampleAudio_spec_witness :
    0 < 8000 ∧ 0 < 16000 ∧ (8000 : ℕ) ≠ 16000
    ∧ (resampleAudio [0, 1] 8000 16000).length =
        ⌊((([0, 1] : List ℚ).length : ℚ) * ((16000 : ℕ) : ℚ)) / ((8000 : ℕ) : ℚ)⌋₊ :=
  ⟨by decide, by decide, by decide,
    (resampleAudio_spec [0, 1] 8000 16000 (by decide) (by decide) (by decide)).1⟩

/-- Folding the source's strict-comparison update is folding `max` with
the absolute value. -/
theorem foldl_maxAbs_step_eq : ∀ (l : List ℚ) (m : ℚ),
    l.foldl (fun max_val x => if |x| > max_val then |x| else max_val) m
      = l.foldl (fun a x => max a |x|) m
  | [], _ => rfl
  | x :: xs, m => by
      simp only [List.foldl_cons]
      rw [show (if |x| > m then |x| else m) = max m |x| by
        rcases le_or_lt |x| m with h | h
        · simp [not_lt.2 h, max_eq_left h]
        · simp [h, max_eq_right h.le]]
      exact foldl_maxAbs_step_eq xs _

/-- The initial accumulator bounds the max-fold from below. -/
theorem le_foldl_max : ∀ (l : List ℚ) (m : ℚ),
    m ≤ l.foldl (fun a x => max a |x|) m
  | [], m => le_refl m
  | x :: xs, m => le_trans (le_max_left m |x|) (le_foldl_max xs _)

/-- Scaling every sample by a non-negative factor scales the max-fold. -/
theorem foldl_max_map_mul (c : ℚ) (hc : 0 ≤ c) : ∀ (l : List ℚ) (m : ℚ),
    (l.map (fun x => x * c)).foldl (fun a x => max a |x|) (m * c)
      = l.foldl (fun a x => max a |x|) m * c
  | [], _ => rfl
  | x :: xs, m => by
      simp only [List.map_cons, List.foldl_cons]
      rw [show max (m * c) |x * c| = max m |x| * c by
        rw [abs_mul, abs_of_nonneg hc, max_mul_of_nonneg _ _ hc]]
      exact foldl_max_map_mul c hc xs _

/-- The peak scan never goes below zero. -/
theorem maxAbsVal_nonneg (l : List ℚ) : 0 ≤ maxAbsVal l := by
  rw [maxAbsVal, foldl_maxAbs_step_eq]
  exact le_foldl_max l 0

/-- The peak of a buffer scaled by a non-negative factor is the scaled
peak. -/
theorem maxAbsVal_map_mul (l : List ℚ) (c : ℚ) (hc : 0 ≤ c) :
    maxAbsVal (l.map (fun x => x * c)) = maxAbsVal l * c := by
  rw [maxAbsVal, maxAbsVal, foldl_maxAbs_step_eq, foldl_maxAbs_step_eq]
  have h := foldl_max_map_mul c hc l 0
  rwa [zero_mul] at h

/-- Claim C3: `normalizeAudio` returns the input itself on silence, and
otherwise scales every sample by `target_level / max_val`, producing a
buffer whose peak absolute value equals the target level exactly (the
embedding's arithmetic is exact). -/
theorem normalizeAudio_spec (audio : List ℚ) (L : ℚ)
    (hN : 1 ≤ audio.length) (hL : 0 ≤ L) :
    (maxAbsVal audio = 0 → normalizeAudio audio L = audio)
    ∧ (maxAbsVal audio ≠ 0 →
        (normalizeAudio audio L).length = audio.length
        ∧ (∀ i, i < audio.length →
            (normalizeAudio audio L).getD i 0 =
              audio.getD i 0 * (L / maxAbsVal audio))
        ∧ maxAbsVal (normalizeAudio audio L) = L) := by
  constructor
  · intro h
    simp [normalizeAudio, h]
  · intro h
    have hunf : normalizeAudio audio L
        = audio.map (fun x => x * (L / maxAbsVal audio)) := by
      simp [normalizeAudio, h]
    have hpos : 0 < maxAbsVal audio :=
      lt_of_le_of_ne (maxAbsVal_nonneg audio) (Ne.symm h)
    have hscale : 0 ≤ L / maxAbsVal audio := div_nonneg hL hpos.le
    refine ⟨by simp [hunf], ?_, ?_⟩
    · intro i hi
      rw [hunf, getD_map_of_lt _ _ 0 0 i hi]
    · rw [hunf, maxAbsVal_map_mul audio _ hscale, mul_comm,
        div_mul_cancel₀ _ h]

/-- The square-sum fold from any accumulator adds the mapped square sum. -/
theorem foldl_add_sq : ∀ (l : List ℚ) (m : ℚ),
    l.foldl (fun sum_squares x => sum_squares + x * x) m
      = m + (l.map (fun x => x * x)).sum
  | [], m => by simp
  | x :: xs, m => by
      simp only [List.foldl_cons, List.map_cons, List.sum_cons]
      rw [foldl_add_sq xs (m + x * x)]
      ring

/-- The accumulated square sum is the sum of the squares. -/
theorem sumSquares_eq (l : List ℚ) :
    sumSquares l = (l.map (fun x => x * x)).sum := by
  rw [sumSquares, foldl_add_sq, zero_add]

/-- Negating every sample leaves the square sum unchanged. -/
theorem sumSquares_map_neg (l : List ℚ) :
    sumSquares (l.map (fun x => -x)) = sumSquares l := by
  rw [sumSquares_eq, sumSquares_eq, List.map_map]
  congr 1
  apply List.map_congr_left
  intro x _
  simp [neg_mul_neg]

/-- Claim C5: on a non-empty buffer `calculateRMS` is
`sqrt(sum_squares / N)` with the square sum accumulated exactly; it is
`0` on an all-zero buffer, invariant under negating every sample, and
equals `1` on `[1, -1, 1, -1]`. -/
theorem calculateRMS_spec (l : List ℚ) (h : l ≠ []) :
    calculateRMS l = some (Real.sqrt (((sumSquares l : ℚ) : ℝ) / (l.length : ℝ)))
    ∧ ((∀ x ∈ l, x = 0) → calculateRMS l = some 0)
    ∧ calculateRMS (l.map (fun x => -x)) = calculateRMS l
    ∧ calculateRMS [1, -1, 1, -1] = some 1 := by
  have hlen : l.length ≠ 0 := fun hh => h (List.length_eq_zero.1 hh)
  have hlenR : ((l.length : ℕ) : ℝ) ≠ 0 := Nat.cast_ne_zero.2 hlen
  have hmain : calculateRMS l
      = some (Real.sqrt (((sumSquares l : ℚ) : ℝ) / (l.length : ℝ))) := by
    simp [calculateRMS, divToNaN, hlenR]
  refine ⟨hmain, ?_, ?_, ?_⟩
  · intro hz
    have hsq : sumSquares l = 0 := by
      rw [sumSquares_eq]
      apply List.sum_eq_zero
      intro y hy
      obtain ⟨x, hx, rfl⟩ := List.mem_map.1 hy
      rw [hz x hx, mul_zero]
    rw [hmain, hsq]
    norm_num
  · have hlen3 : (l.map (fun x => -x)).length = l.length := List.length_map l _
    have h1 : calculateRMS (l.map (fun x => -x))
        = some (Real.sqrt (((sumSquares l : ℚ) : ℝ) / (l.length : ℝ))) := by
      simp only [calculateRMS, sumSquares_map_neg, hlen3, divToNaN,
        if_neg hlenR, Option.map_some']
    rw [h1, hmain]
  · have h4 : sumSquares [1, -1, 1, -1] = 4 := by
      norm_num [sumSquares]
    have hlen4 : (([1, -1, 1, -1] : List ℚ)).length = 4 := rfl
    have h1 : calculateRMS [1, -1, 1, -1]
        = some (Real.sqrt (((4 : ℚ) : ℝ) / ((4 : ℕ) : ℝ))) := by
      simp only [calculateRMS, h4, hlen4, divToNaN]
      norm_num
    rw [h1]
    have h2 : (((4 : ℚ) : ℝ) / ((4 : ℕ) : ℝ)) = 1 := by norm_num
    rw [h2, Real.sqrt_one]

/-- Witness for C5 at the spec's concrete scenario. -/
theorem calculateRMS_spec_witness :
    ([1, -1, 1, -1] : List ℚ) ≠ []
    ∧ calculateRMS [1, -1, 1, -1] = some 1 :=
  ⟨by simp, (calculateRMS_spec [1, -1, 1, -1] (by simp)).2.2.2⟩

/-- Claim C8: `calculateRMS` has no guard for the empty buffer: the
division `sum_squares / length` there is `0.0 / 0`, whose NaN result is
embedded as `none` — not `0` and not any defined real value — and the
empty buffer is exactly the input on which this happens. -/
theorem calculateRMS_empty :
    calculateRMS ([] : List ℚ) = none
    ∧ (∀ r : ℝ, calculateRMS ([] : List ℚ) ≠ some r)
    ∧ ∀ l : List ℚ, (calculateRMS l = none ↔ l.length = 0) := by
  have h0 : calculateRMS ([] : List ℚ) = none := by
    simp [calculateRMS, divToNaN]
  refine ⟨h0, by simp [h0], ?_⟩
  intro l
  by_cases h : l.length = 0
  · have hR : ((l.length : ℕ) : ℝ) = 0 := by simp [h]
    simp [calculateRMS, divToNaN, hR, h]
  · have hR : ((l.length : ℕ) : ℝ) ≠ 0 := Nat.cast_ne_zero.2 h
    simp [calculateRMS, divToNaN, hR, h]

/-- Witness for C8: the degenerate evaluation itself. -/
theorem calculateRMS_empty_witness :
    calculateRMS ([] : List ℚ) = none ∧ calculateRMS ([] : List ℚ) ≠ some 0 :=
  ⟨calculateRMS_empty.1, calculateRMS_empty.2.1 0⟩

/-- Witness for C3 at the spec's concrete scenario. -/
theorem normalizeAudio_spec_witness :
    1 ≤ ([1 / 5, -1 / 2, 1 / 10] : List ℚ).length ∧ (0 : ℚ) ≤ 1
    ∧ maxAbsVal ([1 / 5, -1 / 2, 1 / 10] : List ℚ) ≠ 0
    ∧ maxAbsVal (normalizeAudio [1 / 5, -1 / 2, 1 / 10] 1) = 1 :=
  ⟨by simp, by norm_num,
    by norm_num [maxAbsVal, abs],
    ((normalizeAudio_spec [1 / 5, -1 / 2, 1 / 10] 1 (by simp) (by norm_num)).2
      (by norm_num [maxAbsVal, abs])).2.2⟩

/-- The filter loop preserves length. -/
theorem hpfLoop_length (a : ℝ) : ∀ (xs : List ℝ) (prev pin : ℝ),
    (hpfLoop a prev pin xs).length = xs.length
  | [], _, _ => rfl
  | _ :: xs, prev, pin => by
      simp only [hpfLoop, List.length_cons, hpfLoop_length a xs]

/-- The filter loop realizes the recurrence
`y[i] = a * (y[i-1] + x[i] - x[i-1])`, with the carried accumulators as
the values preceding index `0`. -/
theorem hpfLoop_getD (a : ℝ) : ∀ (xs : List ℝ) (prev pin : ℝ) (i : ℕ),
    i < xs.length →
    (hpfLoop a prev pin xs).getD i 0 =
      a * ((if i = 0 then prev else (hpfLoop a prev pin xs).getD (i - 1) 0)
           + xs.getD i 0
           - (if i = 0 then pin else xs.getD (i - 1) 0))
  | [], _, _, _, hi => absurd hi (by simp)
  | x :: xs, prev, pin, 0, _ => by simp [hpfLoop]
  | x :: xs, prev, pin, j + 1, hi => by
      have hj : j < xs.length := by simpa using hi
      have ih := hpfLoop_getD a xs (a * (prev + x - pin)) x j hj
      cases j with
      | zero => simpa [hpfLoop] using ih
      | succ k => simpa [hpfLoop] using ih

/-- Characterization of a successful `highPassFilter` run: the output
has the input's length, passes the first sample through, and satisfies
the first-order recurrence with coefficient `hpfAlpha`. -/
theorem highPassFilter_sound (audio : List ℝ) (fc : ℝ) (fs : ℕ)
    (hN : 1 ≤ audio.length) :
    ∃ filtered, highPassFilter audio fc fs = some filtered
      ∧ filtered.length = audio.length
      ∧ filtered.getD 0 0 = audio.getD 0 0
      ∧ ∀ i, 1 ≤ i → i < audio.length →
          filtered.getD i 0 =
            hpfAlpha fc fs
              * (filtered.getD (i - 1) 0 + audio.getD i 0 - audio.getD (i - 1) 0) := by
  match audio, hN with
  | a0 :: rest, _ =>
    refine ⟨a0 :: hpfLoop (hpfAlpha fc fs) a0 a0 rest, rfl, ?_, rfl, ?_⟩
    · simp [hpfLoop_length]
    · intro i h1 hi
      obtain ⟨j, rfl⟩ : ∃ j, i = j + 1 :=
        ⟨i - 1, (Nat.succ_pred_eq_of_pos h1).symm⟩
      have hj : j < rest.length := by simpa using hi
      have hgl := hpfLoop_getD (hpfAlpha fc fs) rest a0 a0 j hj
      cases j with
      | zero => simpa using hgl
      | succ k => simpa using hgl

/-- Claim C2: on a buffer of length at least one with positive cutoff
and sample rate, `highPassFilter` returns a same-length buffer whose
first sample is the first input sample and which satisfies
`filtered[i] = alpha * (filtered[i-1] + input[i] - input[i-1])` with
`dt = 1/fs`, `rc = 1/(2*pi*fc)`, `alpha = rc / (rc + dt)`. -/
theorem highPassFilter_spec (audio : List ℝ) (fc : ℝ) (fs : ℕ)
    (hN : 1 ≤ audio.length) (hfc : 0 < fc) (hfs : 0 < fs) :
    ∃ filtered, highPassFilter audio fc fs = some filtered
      ∧ filtered.length = audio.length
      ∧ filtered.getD 0 0 = audio.getD 0 0
      ∧ ∀ i, 1 ≤ i → i < audio.length →
          filtered.getD i 0 =
            (1 / (2 * Real.pi * fc)) / (1 / (2 * Real.pi * fc) + 1 / (fs : ℝ))
              * (filtered.getD (i - 1) 0 + audio.getD i 0 - audio.getD (i - 1) 0) := by
  have halpha : hpfAlpha fc fs
      = (1 / (2 * Real.pi * fc)) / (1 / (2 * Real.pi * fc) + 1 / (fs : ℝ)) := rfl
  rw [← halpha]
  exact highPassFilter_sound audio fc fs hN

/-- Witness for C2 on a concrete two-sample buffer. -/
theorem highPassFilter_spec_witness :
    1 ≤ ([1, 2] : List ℝ).length ∧ (0 : ℝ) < 100 ∧ 0 < 16000
    ∧ ∃ filtered, highPassFilter [1, 2] 100 16000 = some filtered
        ∧ filtered.length = ([1, 2] : List ℝ).length
        ∧ filtered.getD 0 0 = ([1, 2] : List ℝ).getD 0 0
        ∧ ∀ i, 1 ≤ i → i < ([1, 2] : List ℝ).length →
            filtered.getD i 0 =
              (1 / (2 * Real.pi * 100)) / (1 / (2 * Real.pi * 100) + 1 / ((16000 : ℕ) : ℝ))
                * (filtered.getD (i - 1) 0 + ([1, 2] : List ℝ).getD i 0
                   - ([1, 2] : List ℝ).getD (i - 1) 0) :=
  ⟨by simp, by norm_num, by norm_num,
    highPassFilter_spec [1, 2] 100 16000 (by simp) (by norm_num) (by norm_num)⟩

/-- The coefficient at 100 Hz cutoff and 16 kHz rate in closed form. -/
theorem hpfAlpha_100_16000 : hpfAlpha 100 16000 = 80 / (80 + Real.pi) := by
  have hpi : (0 : ℝ) < Real.pi := Real.pi_pos
  have h1 : (2 : ℝ) * Real.pi * 100 ≠ 0 := by positivity
  have h2 : ((16000 : ℕ) : ℝ) ≠ 0 := by norm_num
  have h3 : (80 : ℝ) + Real.pi ≠ 0 := by positivity
  have h4 : 1 / (2 * Real.pi * 100) + 1 / ((16000 : ℕ) : ℝ) ≠ 0 := by
    have : (0 : ℝ) < 1 / (2 * Real.pi * 100) + 1 / ((16000 : ℕ) : ℝ) := by
      have hc : ((16000 : ℕ) : ℝ) = 16000 := by norm_num
      rw [hc]
      positivity
    exact this.ne'
  rw [show hpfAlpha 100 16000
      = (1 / (2 * Real.pi * 100)) / (1 / (2 * Real.pi * 100) + 1 / ((16000 : ℕ) : ℝ)) from rfl]
  rw [div_eq_div_iff h4 h3]
  field_simp
  ring

/-- Claim C9: on a constant buffer the filter output decays geometrically
by the factor `alpha` from index 2 onward; concretely, on `[1,1,1,1]` at
cutoff 100 Hz and rate 16000 Hz the first output sample is `1` and the
coefficient is `0.9623` to within `10^-4`. -/
theorem highPassFilter_const_decay (c : ℝ) (N : ℕ) (fc : ℝ) (fs : ℕ)
    (hN : 1 ≤ N) :
    (∃ filtered, highPassFilter (List.replicate N c) fc fs = some filtered
       ∧ ∀ i, 2 ≤ i → i < N →
           filtered.getD i 0 = hpfAlpha fc fs * filtered.getD (i - 1) 0)
    ∧ (∃ filtered, highPassFilter (List.replicate 4 (1 : ℝ)) 100 16000 = some filtered
       ∧ filtered.getD 0 0 = 1)
    ∧ |hpfAlpha 100 16000 - 0.9623| < 1 / 10000 := by
  refine ⟨?_, ?_, ?_⟩
  · have hlen : 1 ≤ (List.replicate N c).length := by simpa using hN
    obtain ⟨filtered, hsome, hflen, h0, hrec⟩ :=
      highPassFilter_sound (List.replicate N c) fc fs hlen
    refine ⟨filtered, hsome, ?_⟩
    intro i h2 hi
    have h1 : 1 ≤ i := le_trans one_le_two h2
    have hiN : i < (List.replicate N c).length := by simpa using hi
    have hrep1 : (List.replicate N c).getD i 0 = c :=
      getD_replicate_of_lt c N i hi 0
    have hrep2 : (List.replicate N c).getD (i - 1) 0 = c :=
      getD_replicate_of_lt c N (i - 1) (lt_of_le_of_lt (Nat.sub_le i 1) hi) 0
    rw [hrec i h1 hiN, hrep1, hrep2]
    ring
  · have hlen : 1 ≤ (List.replicate 4 (1 : ℝ)).length := by simp
    obtain ⟨filtered, hsome, hflen, h0, hrec⟩ :=
      highPassFilter_sound (List.replicate 4 (1 : ℝ)) 100 16000 hlen
    refine ⟨filtered, hsome, ?_⟩
    rw [h0, getD_replicate_of_lt (1 : ℝ) 4 0 (by norm_num) 0]
  · have hpi1 : (3.141592 : ℝ) < Real.pi := Real.pi_gt_d6
    have hpi2 : Real.pi < 3.141593 := Real.pi_lt_d6
    have hden : (0 : ℝ) < 80 + Real.pi := by linarith
    rw [hpfAlpha_100_16000, abs_lt]
    constructor
    · have : (0.9622 : ℝ) < 80 / (80 + Real.pi) := by
        rw [lt_div_iff₀ hden]
        nlinarith
      nlinarith
    · have : 80 / (80 + Real.pi) < (0.96222 : ℝ) := by
        rw [div_lt_iff₀ hden]
        nlinarith
      nlinarith

/-- Witness for C9 at the spec's concrete scenario. -/
theorem highPassFilter_const_decay_witness :
    1 ≤ 4 ∧ |hpfAlpha 100 16000 - 0.9623| < 1 / 10000 :=
  ⟨by decide, (highPassFilter_const_decay 1 4 100 16000 (by decide)).2.2⟩

/-- Claim C10: the unconditional write `filtered[0] = audio[0]` makes the
filter succeed exactly on buffers of length at least one; the empty
buffer is exactly the input on which the index-0 access faults. -/
theorem highPassFilter_inBounds (audio : List ℝ) (fc : ℝ) (fs : ℕ) :
    ((highPassFilter audio fc fs).isSome ↔ 1 ≤ audio.length)
    ∧ (highPassFilter audio fc fs = none ↔ audio.length = 0) := by
  cases audio <;> simp [highPassFilter]

/-- Claim C7: under every pattern of JNI acquisition/allocation failures,
each operation returns its null result (`none`, or the scalar `0.0` for
the RMS meter) or the complete output of the pure computation — never a
partial output — and an input-acquisition failure always yields the null
result.  The embedding is pure and every path releases the input with
`JNI_ABORT`, so the input buffer is never mutated. -/
theorem jni_failure_contract (o : AllocOracle) (pcm : List ℤ)
    (x audio : List ℚ) (raudio : List ℝ) (s t : ℕ) (fc : ℝ) (fs : ℕ) (L : ℚ) :
    (pcm16ToFloatJni o pcm = none ∨ pcm16ToFloatJni o pcm = some (pcm16ToFloat pcm))
    ∧ (resampleAudioJni o x s t = none
        ∨ resampleAudioJni o x s t = some (resampleAudio x s t))
    ∧ (highPassFilterJni o raudio fc fs = none
        ∨ highPassFilterJni o raudio fc fs = highPassFilter raudio fc fs)
    ∧ (normalizeAudioJni o audio L = none
        ∨ normalizeAudioJni o audio L = some (normalizeAudio audio L))
    ∧ (calculateRMSJni o audio = some 0
        ∨ calculateRMSJni o audio = calculateRMS audio)
    ∧ (o.getInput = false →
        pcm16ToFloatJni o pcm = none
        ∧ (s ≠ t → resampleAudioJni o x s t = none)
        ∧ highPassFilterJni o raudio fc fs = none
        ∧ normalizeAudioJni o audio L = none
        ∧ calculateRMSJni o audio = some 0) := by
  obtain ⟨gi, no, ge⟩ := o
  refine ⟨?_, ?_, ?_, ?_, ?_, ?_⟩
  · cases gi <;> cases no <;> cases ge <;> simp [pcm16ToFloatJni]
  · by_cases hst : s = t
    · subst hst
      right
      simp [resampleAudioJni, resampleAudio]
    · cases gi <;> cases no <;> cases ge <;> simp [resampleAudioJni, hst]
  · cases gi <;> cases no <;> cases ge <;> simp [highPassFilterJni]
  · by_cases hmax : maxAbsVal audio = 0
    · cases gi <;> simp [normalizeAudioJni, normalizeAudio, hmax]
    · cases gi <;> cases no <;> cases ge <;>
        simp [normalizeAudioJni, normalizeAudio, hmax]
  · cases gi <;> simp [calculateRMSJni]
  · intro hgi
    simp only at hgi
    subst hgi
    refine ⟨by simp [pcm16ToFloatJni], ?_, by simp [highPassFilterJni],
      by simp [normalizeAudioJni], by simp [calculateRMSJni]⟩
    intro hst
    simp [resampleAudioJni, hst]

/-- Witness for C7 at a failing input acquisition. -/
theorem jni_failure_contract_witness :
    pcm16ToFloatJni ⟨false, true, true⟩ [1] = none
    ∧ calculateRMSJni ⟨false, true, true⟩ [1] = some 0 :=
  ⟨((jni_failure_contract ⟨false, true, true⟩ [1] [] [] [] 1 2 1 1 1).2.2.2.2.2
      rfl).1,
   ((jni_failure_contract ⟨false, true, true⟩ [1] [] [] [] 1 2 1 1 1).2.2.2.2.2
      rfl).2.2.2.2⟩
